import Mathlib

/-!
Shallow embedding of the `rust_trie` library (`src/lib.rs`).

The Rust code defines a generic trie node

  pub struct Trie<K, D> { children: Vec<Trie<K, D>>, key: Option<K>, data: Option<D> }

with three operations: `new_empty`, `insert_iter` (with `insert` as sugar) and
`search_iter` (with `search` as sugar).  Iterators over the key-element type are
modelled as `List K`; the in-place mutation of `insert_iter` is modelled by
returning the updated trie together with the `Result` value; `Result<(), &str>`
is modelled as `Except String Unit`.
-/

namespace RustTrie

/-- The `Trie<K, D>` struct: a list of children, an optional key element
(the edge label leading to this node) and an optional payload. -/
inductive Trie (K D : Type) : Type where
  | node : List (Trie K D) → Option K → Option D → Trie K D

namespace Trie

variable {K D : Type}

/-- Field accessor for `children`. -/
def children : Trie K D → List (Trie K D)
  | .node cs _ _ => cs

/-- Field accessor for `key`. -/
def key : Trie K D → Option K
  | .node _ k _ => k

/-- Field accessor for `data`. -/
def data : Trie K D → Option D
  | .node _ _ d => d

end Trie

/-- `pub type ErrType = Result<(), &'static str>;` -/
abbrev ErrType := Except String Unit

/-- The error value produced by a duplicate insert: `Err("key already present!")`. -/
def dupErr : ErrType := .error "key already present!"

/-- `Trie::new_empty()`: a node with no children, no key and no data. -/
def new_empty {K D : Type} : Trie K D := .node [] none none

variable {K D : Type} [DecidableEq K]

/-- The child-matching test performed inside the `for` loops of both
`insert_iter` and `search_iter`:
`if let Some(child_key_value) = child.key { if child_key_value == this_key_value { ... } }`.
A child whose `key` is `None` never matches. -/
def childMatches (k : K) (c : Trie K D) : Bool :=
  match c.key with
  | some ck => decide (ck = k)
  | none => false

/-- The linear scan over the children vector shared by `insert_iter` and
`search_iter`: find the first child matching key element `k`, returning the
children strictly before it, the child itself, and the children after it. -/
def findChild (cs : List (Trie K D)) (k : K) :
    Option (List (Trie K D) × Trie K D × List (Trie K D)) :=
  match cs with
  | [] => none
  | c :: cs' =>
      if childMatches k c then some ([], c, cs')
      else
        match findChild cs' k with
        | some (pre, m, post) => some (c :: pre, m, post)
        | none => none

/-- `Trie::insert_iter`.  Pulls the next key element; if present, scans the
children for a match (descending into the first match), otherwise creates a
fresh child with that key element, inserts the rest into it and pushes it at
the end of the children vector.  When the key sequence is exhausted, sets
`data` if absent, or fails with `dupErr` if a value is already present.
The updated trie is returned alongside the `Result`. -/
def insertIter : Trie K D → List K → D → Trie K D × ErrType
  | .node cs k0 d0, [], d =>
      match d0 with
      | none => (.node cs k0 (some d), .ok ())
      | some v => (.node cs k0 (some v), dupErr)
  | .node cs k0 d0, k :: rest, d =>
      match findChild cs k with
      | some (pre, c, post) =>
          let r := insertIter c rest d
          (.node (pre ++ r.1 :: post) k0 d0, r.2)
      | none =>
          let r := insertIter (.node [] (some k) none) rest d
          (.node (cs ++ [r.1]) k0 d0, r.2)

/-- `Trie::search_iter`.  Pulls the next key element; if present, scans the
children for a match and, if one is found, returns the recursive search's
result unchanged; with no match (or exhausted input) the current node's
`data` is returned. -/
def searchIter (t : Trie K D) (ks : List K) : Option D :=
  match ks with
  | [] => t.data
  | k :: rest =>
      match findChild t.children k with
      | some (_, c, _) => searchIter c rest
      | none => t.data

/-- Exact-key lookup: the `data` stored at the node reached by following
exactly `ks`, or `none` if that path does not exist.  This is the structural
meaning of "key `ks` is present" used in the spec's preconditions; it is not
an operation of the Rust library itself but is definable from the same
`findChild` scan. -/
def lookupExact (t : Trie K D) (ks : List K) : Option D :=
  match ks with
  | [] => t.data
  | k :: rest =>
      match findChild t.children k with
      | some (_, c, _) => lookupExact c rest
      | none => none

/-- `true` iff some node on the path traversed by `searchIter t ks`
(the current node included) carries a stored value. -/
def pathHasValue (t : Trie K D) (ks : List K) : Bool :=
  t.data.isSome ||
    match ks with
    | [] => false
    | k :: rest =>
        match findChild t.children k with
        | some (_, c, _) => pathHasValue c rest
        | none => false

/-- The single-path trie produced by inserting key `ks` with value `d` into a
node with no children and no data whose own key element is `k0`: a chain of
fresh nodes, with the value at the end. -/
def chainRoot (k0 : Option K) (ks : List K) (d : D) : Trie K D :=
  match ks with
  | [] => .node [] k0 (some d)
  | k :: rest => .node [chainRoot (some k) rest d] k0 none

/-- The trie obtained from a fresh node (key element `k0`) by inserting a
prefix `P` with value `v1` and its extension `P ++ s :: S` with value `v2`:
a chain along `P` ending in a node carrying `v1` whose sole child is the
chain for `s :: S` carrying `v2` at its end. -/
def twoT (k0 : Option K) (P : List K) (s : K) (S : List K) (v1 v2 : D) : Trie K D :=
  match P with
  | [] => .node [chainRoot (some s) S v2] k0 (some v1)
  | p :: P' => .node [twoT (some p) P' s S v1 v2] k0 none

/-- Fold a list of `(key, value)` insert operations over a trie, keeping the
updated trie and discarding each call's `Result`. -/
def insertAll (t : Trie K D) (ops : List (List K × D)) : Trie K D :=
  ops.foldl (fun u p => (insertIter u p.1 p.2).1) t

/-- The tries reachable from `new_empty` by any sequence of operations of the
library.  Only `insert_iter` can modify the trie (`search_iter` takes `&self`
and is modelled as a pure function), so reachability is generated by
`insert_iter` alone. -/
inductive Reachable : Trie K D → Prop where
  | base : Reachable new_empty
  | step (t : Trie K D) (ks : List K) (d : D) :
      Reachable t → Reachable (insertIter t ks d).1

/-- No node of the trie has two distinct children carrying the same key
element: whenever child `a` comes before child `b` in some node's children
list, their `key` fields do not hold the same element. -/
inductive NodupChildren : Trie K D → Prop where
  | mk (cs : List (Trie K D)) (k : Option K) (d : Option D) :
      List.Pairwise (fun a b => ∀ e : K, Trie.key a = some e → Trie.key b ≠ some e) cs →
      (∀ c ∈ cs, NodupChildren c) → NodupChildren (.node cs k d)

/-- Every node that appears in some node's children list has a present
(`some`) key element. -/
inductive KeyedChildren : Trie K D → Prop where
  | mk (cs : List (Trie K D)) (k : Option K) (d : Option D) :
      (∀ c ∈ cs, (Trie.key c).isSome = true) →
      (∀ c ∈ cs, KeyedChildren c) → KeyedChildren (.node cs k d)

/-! ### Basic structural lemmas -/

omit [DecidableEq K] in
@[simp] theorem Trie.children_node (cs : List (Trie K D)) (k : Option K) (d : Option D) :
    (Trie.node cs k d).children = cs := rfl

omit [DecidableEq K] in
@[simp] theorem Trie.key_node (cs : List (Trie K D)) (k : Option K) (d : Option D) :
    (Trie.node cs k d).key = k := rfl

omit [DecidableEq K] in
@[simp] theorem Trie.data_node (cs : List (Trie K D)) (k : Option K) (d : Option D) :
    (Trie.node cs k d).data = d := rfl

/-! ### Equation lemmas for the recursive operations -/

@[simp] theorem insertIter_nil_none (cs : List (Trie K D)) (k0 : Option K) (d : D) :
    insertIter (.node cs k0 none) [] d = (.node cs k0 (some d), .ok ()) := by
  simp [insertIter]

@[simp] theorem insertIter_nil_some (cs : List (Trie K D)) (k0 : Option K) (v : D) (d : D) :
    insertIter (.node cs k0 (some v)) [] d = (.node cs k0 (some v), dupErr) := by
  simp [insertIter]

theorem insertIter_cons_found {cs : List (Trie K D)} {k : K} {pre c post}
    (h : findChild cs k = some (pre, c, post)) (k0 : Option K) (d0 : Option D)
    (rest : List K) (d : D) :
    insertIter (.node cs k0 d0) (k :: rest) d =
      (.node (pre ++ (insertIter c rest d).1 :: post) k0 d0, (insertIter c rest d).2) := by
  rw [insertIter, h]

theorem insertIter_cons_new {cs : List (Trie K D)} {k : K}
    (h : findChild cs k = none) (k0 : Option K) (d0 : Option D) (rest : List K) (d : D) :
    insertIter (.node cs k0 d0) (k :: rest) d =
      (.node (cs ++ [(insertIter (.node [] (some k) none) rest d).1]) k0 d0,
       (insertIter (.node [] (some k) none) rest d).2) := by
  rw [insertIter, h]

@[simp] theorem searchIter_nil (t : Trie K D) : searchIter t [] = t.data := by
  rw [searchIter]

theorem searchIter_cons_found {t : Trie K D} {k : K} {pre c post}
    (h : findChild t.children k = some (pre, c, post)) (rest : List K) :
    searchIter t (k :: rest) = searchIter c rest := by
  rw [searchIter, h]

theorem searchIter_cons_none {t : Trie K D} {k : K}
    (h : findChild t.children k = none) (rest : List K) :
    searchIter t (k :: rest) = t.data := by
  rw [searchIter, h]

@[simp] theorem lookupExact_nil (t : Trie K D) : lookupExact t [] = t.data := by
  rw [lookupExact]

theorem lookupExact_cons_found {t : Trie K D} {k : K} {pre c post}
    (h : findChild t.children k = some (pre, c, post)) (rest : List K) :
    lookupExact t (k :: rest) = lookupExact c rest := by
  rw [lookupExact, h]

theorem lookupExact_cons_none {t : Trie K D} {k : K}
    (h : findChild t.children k = none) (rest : List K) :
    lookupExact t (k :: rest) = none := by
  rw [lookupExact, h]

theorem searchIter_node_found {cs : List (Trie K D)} {k : K} {pre c post}
    (h : findChild cs k = some (pre, c, post)) (k0 : Option K) (d0 : Option D)
    (rest : List K) :
    searchIter (.node cs k0 d0) (k :: rest) = searchIter c rest :=
  searchIter_cons_found (t := .node cs k0 d0) h rest

theorem searchIter_node_none {cs : List (Trie K D)} {k : K}
    (h : findChild cs k = none) (k0 : Option K) (d0 : Option D) (rest : List K) :
    searchIter (.node cs k0 d0) (k :: rest) = d0 :=
  searchIter_cons_none (t := .node cs k0 d0) h rest

theorem lookupExact_node_found {cs : List (Trie K D)} {k : K} {pre c post}
    (h : findChild cs k = some (pre, c, post)) (k0 : Option K) (d0 : Option D)
    (rest : List K) :
    lookupExact (.node cs k0 d0) (k :: rest) = lookupExact c rest :=
  lookupExact_cons_found (t := .node cs k0 d0) h rest

theorem lookupExact_node_none {cs : List (Trie K D)} {k : K}
    (h : findChild cs k = none) (k0 : Option K) (d0 : Option D) (rest : List K) :
    lookupExact (.node cs k0 d0) (k :: rest) = none :=
  lookupExact_cons_none (t := .node cs k0 d0) h rest

/-! ### Lemmas about the child scan -/

theorem findChild_eq_some {cs : List (Trie K D)} {k : K} {pre c post}
    (h : findChild cs k = some (pre, c, post)) :
    cs = pre ++ c :: post ∧ (∀ x ∈ pre, childMatches k x = false) ∧
      childMatches k c = true := by
  induction cs generalizing pre with
  | nil => simp [findChild] at h
  | cons a cs' ih =>
      rw [findChild] at h
      by_cases ha : childMatches k a
      · simp [ha] at h
        obtain ⟨h1, h2, h3⟩ := h
        subst h1; subst h2; subst h3
        simp [ha]
      · simp [ha] at h
        match hf : findChild cs' k with
        | some (pre', m, post') =>
            rw [hf] at h
            simp at h
            obtain ⟨h1, h2, h3⟩ := h
            subst h1; subst h2; subst h3
            obtain ⟨e1, e2, e3⟩ := ih hf
            refine ⟨by simp [e1], ?_, e3⟩
            intro x hx
            rcases List.mem_cons.mp hx with hx | hx
            · subst hx; simpa using ha
            · exact e2 x hx
        | none => rw [hf] at h; simp at h

theorem findChild_of_split {pre : List (Trie K D)} {k : K} {c : Trie K D}
    (hpre : ∀ x ∈ pre, childMatches k x = false) (hc : childMatches k c = true)
    (post : List (Trie K D)) :
    findChild (pre ++ c :: post) k = some (pre, c, post) := by
  induction pre with
  | nil => simp [findChild, hc]
  | cons a pre' ih =>
      have ha : childMatches k a = false := hpre a (List.mem_cons_self a pre')
      have hpre' : ∀ x ∈ pre', childMatches k x = false :=
        fun x hx => hpre x (List.mem_cons_of_mem a hx)
      simp only [List.cons_append, findChild, ha, Bool.false_eq_true, if_false,
        List.append_eq]
      rw [ih hpre']

theorem findChild_singleton {c : Trie K D} {k : K} (hc : childMatches k c = true) :
    findChild [c] k = some ([], c, []) := by
  simp [findChild, hc]

theorem findChild_eq_none {cs : List (Trie K D)} {k : K} :
    findChild cs k = none ↔ ∀ x ∈ cs, childMatches k x = false := by
  induction cs with
  | nil => simp [findChild]
  | cons a cs' ih =>
      constructor
      · intro h x hx
        rw [findChild] at h
        by_cases ha : childMatches k a
        · simp [ha] at h
        · rcases List.mem_cons.mp hx with hx | hx
          · subst hx; simpa using ha
          · simp only [ha, Bool.false_eq_true, if_false] at h
            match hf : findChild cs' k with
            | some (pre', m, post') => rw [hf] at h; simp at h
            | none => exact ih.mp hf x hx
      · intro h
        have ha : childMatches k a = false := h a (List.mem_cons_self a cs')
        have h' : ∀ x ∈ cs', childMatches k x = false :=
          fun x hx => h x (List.mem_cons_of_mem a hx)
        rw [findChild]
        simp only [ha, Bool.false_eq_true, if_false]
        rw [ih.mpr h']

theorem findChild_append_of_some {cs : List (Trie K D)} {k : K} {pre c post}
    (h : findChild cs k = some (pre, c, post)) (l : List (Trie K D)) :
    findChild (cs ++ l) k = some (pre, c, post ++ l) := by
  obtain ⟨h1, h2, h3⟩ := findChild_eq_some h
  subst h1
  simpa using findChild_of_split h2 h3 (post ++ l)

theorem findChild_append_of_none {cs : List (Trie K D)} {k : K}
    (h : findChild cs k = none) {c : Trie K D} (hc : childMatches k c = true) :
    findChild (cs ++ [c]) k = some (cs, c, []) :=
  findChild_of_split (findChild_eq_none.mp h) hc []

theorem childMatches_congr {x y : Trie K D} (h : x.key = y.key) (k : K) :
    childMatches k x = childMatches k y := by
  unfold childMatches; rw [h]

/-! ### Structural facts about `insertIter` -/

theorem insertIter_key (t : Trie K D) (ks : List K) (d : D) :
    ((insertIter t ks d).1).key = t.key := by
  cases t with
  | node cs k0 d0 =>
      cases ks with
      | nil => cases d0 <;> simp
      | cons k rest =>
          match hf : findChild cs k with
          | some (pre, c, post) => rw [insertIter_cons_found hf]; simp
          | none => rw [insertIter_cons_new hf]; simp

theorem insertIter_data_cons (t : Trie K D) (k : K) (rest : List K) (d : D) :
    ((insertIter t (k :: rest) d).1).data = t.data := by
  cases t with
  | node cs k0 d0 =>
      match hf : findChild cs k with
      | some (pre, c, post) => rw [insertIter_cons_found hf]; simp
      | none => rw [insertIter_cons_new hf]; simp

theorem insertIter_children_nil (t : Trie K D) (d : D) :
    ((insertIter t [] d).1).children = t.children := by
  cases t with
  | node cs k0 d0 => cases d0 <;> simp

omit [DecidableEq K] in
theorem chainRoot_key (k0 : Option K) (ks : List K) (d : D) :
    (chainRoot k0 ks d : Trie K D).key = k0 := by
  cases ks <;> simp [chainRoot]

theorem childMatches_chainRoot (k : K) (rest : List K) (d : D) :
    childMatches k (chainRoot (some k) rest d : Trie K D) = true := by
  unfold childMatches
  rw [chainRoot_key]
  simp

theorem insertIter_fresh (k0 : Option K) (ks : List K) (d : D) :
    insertIter (Trie.node [] k0 none : Trie K D) ks d = (chainRoot k0 ks d, .ok ()) := by
  induction ks generalizing k0 with
  | nil => simp [chainRoot]
  | cons k rest ih =>
      rw [insertIter_cons_new (by simp [findChild])]
      rw [ih (some k)]
      simp [chainRoot]

theorem insertIter_result (t : Trie K D) (ks : List K) (d : D) :
    (insertIter t ks d).2 = .ok () ∨ (insertIter t ks d).2 = dupErr := by
  induction ks generalizing t with
  | nil =>
      cases t with
      | node cs k0 d0 => cases d0 <;> simp
  | cons k rest ih =>
      cases t with
      | node cs k0 d0 =>
          match hf : findChild cs k with
          | some (pre, c, post) =>
              rw [insertIter_cons_found hf]
              exact ih c
          | none =>
              rw [insertIter_cons_new hf]
              rw [insertIter_fresh]
              simp

theorem insertIter_err_eq {t : Trie K D} {ks : List K} {d : D} {e : String}
    (h : (insertIter t ks d).2 = .error e) : (insertIter t ks d).1 = t := by
  induction ks generalizing t with
  | nil =>
      cases t with
      | node cs k0 d0 =>
          cases d0 with
          | none => simp at h
          | some v => simp
  | cons k rest ih =>
      cases t with
      | node cs k0 d0 =>
          match hf : findChild cs k with
          | some (pre, c, post) =>
              rw [insertIter_cons_found hf] at h ⊢
              simp only at h
              rw [ih h]
              simpa using (findChild_eq_some hf).1.symm
          | none =>
              rw [insertIter_cons_new hf, insertIter_fresh] at h
              simp [dupErr] at h

theorem insertIter_ok_of_lookup_none {t : Trie K D} {ks : List K} (d : D)
    (h : lookupExact t ks = none) : (insertIter t ks d).2 = .ok () := by
  induction ks generalizing t with
  | nil =>
      cases t with
      | node cs k0 d0 =>
          cases d0 with
          | none => simp
          | some v => simp at h
  | cons k rest ih =>
      cases t with
      | node cs k0 d0 =>
          match hf : findChild cs k with
          | some (pre, c, post) =>
              rw [lookupExact_node_found hf] at h
              rw [insertIter_cons_found hf]
              exact ih h
          | none =>
              rw [insertIter_cons_new hf, insertIter_fresh]

theorem insertIter_dup_of_lookup_some {t : Trie K D} {ks : List K} {v : D} (d : D)
    (h : lookupExact t ks = some v) : (insertIter t ks d).2 = dupErr := by
  induction ks generalizing t with
  | nil =>
      cases t with
      | node cs k0 d0 =>
          cases d0 with
          | none => simp at h
          | some w => simp
  | cons k rest ih =>
      cases t with
      | node cs k0 d0 =>
          match hf : findChild cs k with
          | some (pre, c, post) =>
              rw [lookupExact_node_found hf] at h
              rw [insertIter_cons_found hf]
              exact ih h
          | none =>
              rw [lookupExact_node_none hf] at h
              exact absurd h (by simp)

theorem lookupExact_chainRoot (k0 : Option K) (ks : List K) (d : D) :
    lookupExact (chainRoot k0 ks d : Trie K D) ks = some d := by
  induction ks generalizing k0 with
  | nil => simp [chainRoot]
  | cons k rest ih =>
      show lookupExact (Trie.node [chainRoot (some k) rest d] k0 none) (k :: rest) = some d
      have hfc : findChild [chainRoot (some k) rest d] k =
          some ([], chainRoot (some k) rest d, []) := by
        exact findChild_singleton (childMatches_chainRoot k rest d)
      rw [lookupExact_node_found hfc]
      exact ih (some k)

theorem lookupExact_insertIter_ok {t : Trie K D} {ks : List K} {d : D}
    (h : (insertIter t ks d).2 = .ok ()) :
    lookupExact (insertIter t ks d).1 ks = some d := by
  induction ks generalizing t with
  | nil =>
      cases t with
      | node cs k0 d0 =>
          cases d0 with
          | none => simp
          | some v => simp [dupErr] at h
  | cons k rest ih =>
      cases t with
      | node cs k0 d0 =>
          match hf : findChild cs k with
          | some (pre, c, post) =>
              rw [insertIter_cons_found hf] at h ⊢
              simp only at h
              obtain ⟨-, hpre, hc⟩ := findChild_eq_some hf
              have hmatch : childMatches k ((insertIter c rest d).1) = true := by
                rw [childMatches_congr (insertIter_key c rest d) k]
                exact hc
              have hfc := findChild_of_split hpre hmatch post
              show lookupExact (Trie.node (pre ++ (insertIter c rest d).1 :: post) k0 d0)
                  (k :: rest) = some d
              rw [lookupExact_node_found (by simpa using hfc)]
              exact ih h
          | none =>
              rw [insertIter_cons_new hf, insertIter_fresh] at h ⊢
              have hfc := findChild_append_of_none hf (childMatches_chainRoot k rest d)
              show lookupExact (Trie.node (cs ++ [chainRoot (some k) rest d]) k0 d0)
                  (k :: rest) = some d
              rw [lookupExact_node_found (by simpa using hfc)]
              exact lookupExact_chainRoot (some k) rest d

theorem searchIter_of_lookupExact {t : Trie K D} {ks : List K} {v : D}
    (h : lookupExact t ks = some v) : searchIter t ks = some v := by
  induction ks generalizing t with
  | nil => simpa using h
  | cons k rest ih =>
      match hf : findChild t.children k with
      | some (pre, c, post) =>
          rw [lookupExact_cons_found hf] at h
          rw [searchIter_cons_found hf]
          exact ih h
      | none =>
          rw [lookupExact_cons_none hf] at h
          exact absurd h (by simp)

/-! ### Lemmas about `pathHasValue` and searching chains -/

theorem pathHasValue_nil (t : Trie K D) : pathHasValue t [] = t.data.isSome := by
  rw [pathHasValue]; simp

theorem pathHasValue_cons_found {t : Trie K D} {k : K} {pre c post}
    (h : findChild t.children k = some (pre, c, post)) (rest : List K) :
    pathHasValue t (k :: rest) = (t.data.isSome || pathHasValue c rest) := by
  rw [pathHasValue, h]

theorem pathHasValue_cons_none {t : Trie K D} {k : K}
    (h : findChild t.children k = none) (rest : List K) :
    pathHasValue t (k :: rest) = t.data.isSome := by
  rw [pathHasValue, h]; simp

theorem searchIter_none_of_pathHasValue_false {t : Trie K D} {ks : List K}
    (h : pathHasValue t ks = false) : searchIter t ks = none := by
  induction ks generalizing t with
  | nil =>
      rw [pathHasValue_nil] at h
      rw [searchIter_nil]
      exact Option.not_isSome_iff_eq_none.mp (by simp [h])
  | cons k rest ih =>
      match hf : findChild t.children k with
      | some (pre, c, post) =>
          rw [pathHasValue_cons_found hf] at h
          simp only [Bool.or_eq_false_iff] at h
          rw [searchIter_cons_found hf]
          exact ih h.2
      | none =>
          rw [pathHasValue_cons_none hf] at h
          rw [searchIter_cons_none hf]
          exact Option.not_isSome_iff_eq_none.mp (by simp [h])

theorem searchIter_chainRoot_full (k0 : Option K) (L : List K) (d : D) (E : List K) :
    searchIter (chainRoot k0 L d : Trie K D) (L ++ E) = some d := by
  induction L generalizing k0 with
  | nil =>
      show searchIter (Trie.node [] k0 (some d)) E = some d
      cases E with
      | nil => simp
      | cons e E' => rw [searchIter_node_none (by simp [findChild])]
  | cons l L' ih =>
      show searchIter (Trie.node [chainRoot (some l) L' d] k0 none)
          (l :: (L' ++ E)) = some d
      have hfc : findChild [chainRoot (some l) L' d] l =
          some ([], chainRoot (some l) L' d, []) := by
        exact findChild_singleton (childMatches_chainRoot l L' d)
      rw [searchIter_node_found hfc]
      exact ih (some l)

theorem searchIter_chainRoot_stops (k0 : Option K) (P : List K) (q : K) (Q : List K)
    (d : D) : searchIter (chainRoot k0 (P ++ q :: Q) d : Trie K D) P = none := by
  induction P generalizing k0 with
  | nil =>
      show searchIter (Trie.node [chainRoot (some q) Q d] k0 none) [] = none
      simp
  | cons p P' ih =>
      show searchIter (Trie.node [chainRoot (some p) (P' ++ q :: Q) d] k0 none)
          (p :: P') = none
      have hfc : findChild [chainRoot (some p) (P' ++ q :: Q) d] p =
          some ([], chainRoot (some p) (P' ++ q :: Q) d, []) := by
        exact findChild_singleton (childMatches_chainRoot p (P' ++ q :: Q) d)
      rw [searchIter_node_found hfc]
      exact ih (some p)

/-! ### The trie holding a prefix and one extension -/

omit [DecidableEq K] in
theorem twoT_key (k0 : Option K) (P : List K) (s : K) (S : List K) (v1 v2 : D) :
    (twoT k0 P s S v1 v2 : Trie K D).key = k0 := by
  cases P <;> simp [twoT]

theorem childMatches_twoT (p : K) (P : List K) (s : K) (S : List K) (v1 v2 : D) :
    childMatches p (twoT (some p) P s S v1 v2 : Trie K D) = true := by
  unfold childMatches
  rw [twoT_key]
  simp

theorem insert_chainRoot_extend (k0 : Option K) (P : List K) (s : K) (S : List K)
    (v1 v2 : D) :
    insertIter (chainRoot k0 P v1 : Trie K D) (P ++ s :: S) v2 =
      (twoT k0 P s S v1 v2, .ok ()) := by
  induction P generalizing k0 with
  | nil =>
      show insertIter (Trie.node [] k0 (some v1)) (s :: S) v2 = _
      rw [insertIter_cons_new (by simp [findChild]), insertIter_fresh]
      simp [twoT]
  | cons p P' ih =>
      show insertIter (Trie.node [chainRoot (some p) P' v1] k0 none)
          (p :: (P' ++ s :: S)) v2 = _
      have hfc : findChild [chainRoot (some p) P' v1] p =
          some ([], chainRoot (some p) P' v1, []) := by
        exact findChild_singleton (childMatches_chainRoot p P' v1)
      rw [insertIter_cons_found hfc, ih (some p)]
      simp [twoT]

theorem insert_chainRoot_shorter (k0 : Option K) (P : List K) (s : K) (S : List K)
    (v1 v2 : D) :
    insertIter (chainRoot k0 (P ++ s :: S) v2 : Trie K D) P v1 =
      (twoT k0 P s S v1 v2, .ok ()) := by
  induction P generalizing k0 with
  | nil =>
      show insertIter (Trie.node [chainRoot (some s) S v2] k0 none) [] v1 = _
      simp [twoT]
  | cons p P' ih =>
      show insertIter (Trie.node [chainRoot (some p) (P' ++ s :: S) v2] k0 none)
          (p :: P') v1 = _
      have hfc : findChild [chainRoot (some p) (P' ++ s :: S) v2] p =
          some ([], chainRoot (some p) (P' ++ s :: S) v2, []) := by
        exact findChild_singleton (childMatches_chainRoot p (P' ++ s :: S) v2)
      rw [insertIter_cons_found hfc, ih (some p)]
      simp [twoT]

theorem searchIter_twoT_ext (k0 : Option K) (P : List K) (s : K) (S : List K)
    (v1 v2 : D) (E : List K) :
    searchIter (twoT k0 P s S v1 v2 : Trie K D) (P ++ s :: (S ++ E)) = some v2 := by
  induction P generalizing k0 with
  | nil =>
      show searchIter (Trie.node [chainRoot (some s) S v2] k0 (some v1))
          (s :: (S ++ E)) = some v2
      have hfc : findChild [chainRoot (some s) S v2] s =
          some ([], chainRoot (some s) S v2, []) := by
        exact findChild_singleton (childMatches_chainRoot s S v2)
      rw [searchIter_node_found hfc]
      exact searchIter_chainRoot_full (some s) S v2 E
  | cons p P' ih =>
      show searchIter (Trie.node [twoT (some p) P' s S v1 v2] k0 none)
          (p :: (P' ++ s :: (S ++ E))) = some v2
      have hfc : findChild [twoT (some p) P' s S v1 v2] p =
          some ([], twoT (some p) P' s S v1 v2, []) := by
        exact findChild_singleton (childMatches_twoT p P' s S v1 v2)
      rw [searchIter_node_found hfc]
      exact ih (some p)

theorem searchIter_twoT_at_P (k0 : Option K) (P : List K) (s : K) (S : List K)
    (v1 v2 : D) : searchIter (twoT k0 P s S v1 v2 : Trie K D) P = some v1 := by
  induction P generalizing k0 with
  | nil =>
      show searchIter (Trie.node [chainRoot (some s) S v2] k0 (some v1)) [] = some v1
      simp
  | cons p P' ih =>
      show searchIter (Trie.node [twoT (some p) P' s S v1 v2] k0 none)
          (p :: P') = some v1
      have hfc : findChild [twoT (some p) P' s S v1 v2] p =
          some ([], twoT (some p) P' s S v1 v2, []) := by
        exact findChild_singleton (childMatches_twoT p P' s S v1 v2)
      rw [searchIter_node_found hfc]
      exact ih (some p)

theorem searchIter_twoT_diverge (k0 : Option K) (P : List K) (s : K) (S : List K)
    (v1 v2 : D) {x : K} (hx : x ≠ s) (R : List K) :
    searchIter (twoT k0 P s S v1 v2 : Trie K D) (P ++ x :: R) = some v1 := by
  induction P generalizing k0 with
  | nil =>
      show searchIter (Trie.node [chainRoot (some s) S v2] k0 (some v1))
          (x :: R) = some v1
      have hno : findChild [chainRoot (some s) S v2] x = none := by
        apply findChild_eq_none.mpr
        intro c hc
        rcases List.mem_singleton.mp hc with rfl
        unfold childMatches
        rw [chainRoot_key]
        simpa using fun h => hx h.symm
      rw [searchIter_node_none hno]
  | cons p P' ih =>
      show searchIter (Trie.node [twoT (some p) P' s S v1 v2] k0 none)
          (p :: (P' ++ x :: R)) = some v1
      have hfc : findChild [twoT (some p) P' s S v1 v2] p =
          some ([], twoT (some p) P' s S v1 v2, []) := by
        exact findChild_singleton (childMatches_twoT p P' s S v1 v2)
      rw [searchIter_node_found hfc]
      exact ih (some p)

theorem searchIter_chainRoot_diverge (k0 : Option K) (S1 : List K) (y : K)
    (S2 : List K) (d : D) {x : K} (hx : x ≠ y) (R : List K) :
    searchIter (chainRoot k0 (S1 ++ y :: S2) d : Trie K D) (S1 ++ x :: R) = none := by
  induction S1 generalizing k0 with
  | nil =>
      show searchIter (Trie.node [chainRoot (some y) S2 d] k0 none) (x :: R) = none
      have hno : findChild [chainRoot (some y) S2 d] x = none := by
        apply findChild_eq_none.mpr
        intro c hc
        rcases List.mem_singleton.mp hc with rfl
        unfold childMatches
        rw [chainRoot_key]
        simpa using fun h => hx h.symm
      rw [searchIter_node_none hno]
  | cons a S1A ih =>
      show searchIter (Trie.node [chainRoot (some a) (S1A ++ y :: S2) d] k0 none)
          (a :: (S1A ++ x :: R)) = none
      rw [searchIter_node_found
        (findChild_singleton (childMatches_chainRoot a (S1A ++ y :: S2) d))]
      exact ih (some a)

theorem searchIter_twoT_deep_diverge (k0 : Option K) (P : List K) (s : K)
    (S1 : List K) (y : K) (S2 : List K) (v1 v2 : D) {x : K} (hx : x ≠ y)
    (R : List K) :
    searchIter (twoT k0 P s (S1 ++ y :: S2) v1 v2 : Trie K D)
      (P ++ s :: (S1 ++ x :: R)) = none := by
  induction P generalizing k0 with
  | nil =>
      show searchIter (Trie.node [chainRoot (some s) (S1 ++ y :: S2) v2] k0 (some v1))
          (s :: (S1 ++ x :: R)) = none
      rw [searchIter_node_found
        (findChild_singleton (childMatches_chainRoot s (S1 ++ y :: S2) v2))]
      exact searchIter_chainRoot_diverge (some s) S1 y S2 v2 hx R
  | cons p PA ih =>
      show searchIter (Trie.node [twoT (some p) PA s (S1 ++ y :: S2) v1 v2] k0 none)
          (p :: (PA ++ s :: (S1 ++ x :: R))) = none
      rw [searchIter_node_found
        (findChild_singleton (childMatches_twoT p PA s (S1 ++ y :: S2) v1 v2))]
      exact ih (some p)

/-! ### Persistence of stored values across later inserts -/

theorem childMatches_eq_true {k : K} {c : Trie K D} (h : childMatches k c = true) :
    c.key = some k := by
  unfold childMatches at h
  match hk : c.key with
  | some ck => rw [hk] at h; simp at h; rw [h]
  | none => rw [hk] at h; simp at h

theorem childMatches_eq_false {k : K} {c : Trie K D} (h : childMatches k c = false)
    {e : K} (he : c.key = some e) : e ≠ k := by
  unfold childMatches at h
  rw [he] at h
  simpa using h

theorem findChild_replace {pre : List (Trie K D)} {c2 c2' : Trie K D}
    {post : List (Trie K D)} {k : K} (hkey : c2'.key = c2.key)
    (hnm : childMatches k c2 = false) {p2 c q2}
    (h : findChild (pre ++ c2 :: post) k = some (p2, c, q2)) :
    ∃ p3 q3, findChild (pre ++ c2' :: post) k = some (p3, c, q3) := by
  induction pre generalizing p2 c q2 with
  | nil =>
      rw [List.nil_append] at h ⊢
      rw [findChild] at h
      have hnm' : childMatches k c2' = false :=
        (childMatches_congr hkey k).trans hnm
      simp only [hnm, Bool.false_eq_true, if_false] at h
      rw [findChild]
      simp only [hnm', Bool.false_eq_true, if_false]
      match hf : findChild post k with
      | some (p, m, q) =>
          rw [hf] at h
          simp at h
          obtain ⟨-, h2, -⟩ := h
          subst h2
          exact ⟨c2' :: p, q, rfl⟩
      | none => rw [hf] at h; simp at h
  | cons a pre' ih =>
      rw [List.cons_append] at h ⊢
      rw [findChild] at h
      by_cases ha : childMatches k a
      · simp only [ha, if_true] at h
        simp only [Option.some.injEq, Prod.mk.injEq] at h
        obtain ⟨-, h2, -⟩ := h
        subst h2
        rw [findChild]
        simp only [ha, if_true]
        exact ⟨[], pre' ++ c2' :: post, rfl⟩
      · simp only [ha, if_false] at h
        rw [findChild]
        simp only [ha, if_false]
        match hf : findChild (pre' ++ c2 :: post) k with
        | some (p, m, q) =>
            rw [hf] at h
            simp at h
            obtain ⟨-, h2, -⟩ := h
            subst h2
            obtain ⟨p3, q3, hf'⟩ := ih hf
            rw [hf']
            exact ⟨a :: p3, q3, rfl⟩
        | none => rw [hf] at h; simp at h

theorem lookupExact_insert_preserved {t : Trie K D} {ks : List K} {v : D}
    (h : lookupExact t ks = some v) (ks2 : List K) (d : D) :
    lookupExact (insertIter t ks2 d).1 ks = some v := by
  induction ks2 generalizing t ks with
  | nil =>
      cases t with
      | node cs k0 d0 =>
          cases d0 with
          | none =>
              rw [insertIter_nil_none]
              cases ks with
              | nil => simp at h
              | cons k rest =>
                  match hf : findChild cs k with
                  | some (p1, c, q1) =>
                      rw [lookupExact_node_found hf] at h
                      rw [lookupExact_node_found hf]
                      exact h
                  | none =>
                      rw [lookupExact_node_none hf] at h
                      exact absurd h (by simp)
          | some w =>
              rw [insertIter_nil_some]
              exact h
  | cons k2 rest2 ih =>
      cases t with
      | node cs k0 d0 =>
          match hf2 : findChild cs k2 with
          | some (pre, c2, post) =>
              rw [insertIter_cons_found hf2]
              cases ks with
              | nil => simpa using h
              | cons k rest =>
                  match hf : findChild cs k with
                  | some (p1, c, q1) =>
                      rw [lookupExact_node_found hf] at h
                      obtain ⟨hsplit2, hpre2, hc2⟩ := findChild_eq_some hf2
                      by_cases hkk : k = k2
                      · subst hkk
                        rw [hf2] at hf
                        simp only [Option.some.injEq, Prod.mk.injEq] at hf
                        obtain ⟨rfl, rfl, rfl⟩ := hf
                        have hmatch : childMatches k ((insertIter c2 rest2 d).1) = true := by
                          rw [childMatches_congr (insertIter_key c2 rest2 d) k]
                          exact hc2
                        rw [lookupExact_node_found (findChild_of_split hpre2 hmatch post)]
                        exact ih h
                      · have hk2key : c2.key = some k2 := childMatches_eq_true hc2
                        have hnm : childMatches k c2 = false := by
                          cases hcm : childMatches k c2 with
                          | false => rfl
                          | true =>
                              have hk : c2.key = some k := childMatches_eq_true hcm
                              rw [hk2key] at hk
                              injection hk with hk
                              exact absurd hk.symm hkk
                        subst hsplit2
                        obtain ⟨p3, q3, hf3⟩ :=
                          findChild_replace (insertIter_key c2 rest2 d) hnm hf
                        rw [lookupExact_node_found hf3]
                        exact h
                  | none =>
                      rw [lookupExact_node_none hf] at h
                      exact absurd h (by simp)
          | none =>
              rw [insertIter_cons_new hf2, insertIter_fresh]
              cases ks with
              | nil => simpa using h
              | cons k rest =>
                  match hf : findChild cs k with
                  | some (p1, c, q1) =>
                      rw [lookupExact_node_found hf] at h
                      rw [lookupExact_node_found
                        (findChild_append_of_some hf [chainRoot (some k2) rest2 d])]
                      exact h
                  | none =>
                      rw [lookupExact_node_none hf] at h
                      exact absurd h (by simp)

/-! ### Preservation of the structural invariants -/

omit [DecidableEq K] in
theorem nodupChildren_chainRoot (k0 : Option K) (ks : List K) (d : D) :
    NodupChildren (chainRoot k0 ks d : Trie K D) := by
  induction ks generalizing k0 with
  | nil => exact .mk [] k0 (some d) (by simp) (by simp)
  | cons k rest ih =>
      show NodupChildren (.node [chainRoot (some k) rest d] k0 none)
      refine .mk _ _ _ (by simp) ?_
      intro c hc
      rcases List.mem_singleton.mp hc with rfl
      exact ih (some k)

omit [DecidableEq K] in
theorem keyedChildren_chainRoot (k0 : Option K) (ks : List K) (d : D) :
    KeyedChildren (chainRoot k0 ks d : Trie K D) := by
  induction ks generalizing k0 with
  | nil => exact .mk [] k0 (some d) (by simp) (by simp)
  | cons k rest ih =>
      show KeyedChildren (.node [chainRoot (some k) rest d] k0 none)
      refine .mk _ _ _ ?_ ?_
      · intro c hc
        rcases List.mem_singleton.mp hc with rfl
        rw [chainRoot_key]
        rfl
      · intro c hc
        rcases List.mem_singleton.mp hc with rfl
        exact ih (some k)

theorem nodupChildren_insert {t : Trie K D} (ht : NodupChildren t) (ks : List K)
    (d : D) : NodupChildren (insertIter t ks d).1 := by
  induction ks generalizing t with
  | nil =>
      cases t with
      | node cs k0 d0 =>
          cases ht with
          | mk _ _ _ hpw hrec =>
              cases d0 with
              | none => rw [insertIter_nil_none]; exact .mk _ _ _ hpw hrec
              | some v => rw [insertIter_nil_some]; exact .mk _ _ _ hpw hrec
  | cons k rest ih =>
      cases t with
      | node cs k0 d0 =>
          cases ht with
          | mk _ _ _ hpw hrec =>
              match hf : findChild cs k with
              | some (pre, c, post) =>
                  rw [insertIter_cons_found hf]
                  obtain ⟨hsplit, hpre, hc⟩ := findChild_eq_some hf
                  subst hsplit
                  have hkey : ((insertIter c rest d).1).key = c.key :=
                    insertIter_key c rest d
                  refine .mk _ _ _ ?_ ?_
                  · rw [List.pairwise_append] at hpw ⊢
                    obtain ⟨hp1, hp2, hp3⟩ := hpw
                    refine ⟨hp1, ?_, ?_⟩
                    · rw [List.pairwise_cons] at hp2 ⊢
                      obtain ⟨hc1, hc2⟩ := hp2
                      exact ⟨fun b hb e he => hc1 b hb e (hkey ▸ he), hc2⟩
                    · intro a ha b hb
                      rcases List.mem_cons.mp hb with rfl | hb
                      · intro e hae
                        rw [hkey]
                        exact hp3 a ha c (List.mem_cons_self c post) e hae
                      · exact hp3 a ha b (List.mem_cons_of_mem _ hb)
                  · intro x hx
                    rcases List.mem_append.mp hx with hx | hx
                    · exact hrec x (List.mem_append_left _ hx)
                    · rcases List.mem_cons.mp hx with rfl | hx
                      · exact ih (hrec c
                          (List.mem_append_right _ (List.mem_cons_self c post)))
                      · exact hrec x
                          (List.mem_append_right _ (List.mem_cons_of_mem _ hx))
              | none =>
                  rw [insertIter_cons_new hf, insertIter_fresh]
                  refine .mk _ _ _ ?_ ?_
                  · rw [List.pairwise_append]
                    refine ⟨hpw, by simp, ?_⟩
                    intro a ha b hb
                    rcases List.mem_singleton.mp hb with rfl
                    intro e hae
                    rw [chainRoot_key]
                    have hm : childMatches k a = false := findChild_eq_none.mp hf a ha
                    have hne := childMatches_eq_false hm hae
                    intro hek
                    injection hek with hek
                    exact hne hek.symm
                  · intro x hx
                    rcases List.mem_append.mp hx with hx | hx
                    · exact hrec x hx
                    · rcases List.mem_singleton.mp hx with rfl
                      exact nodupChildren_chainRoot (some k) rest d

theorem keyedChildren_insert {t : Trie K D} (ht : KeyedChildren t) (ks : List K)
    (d : D) : KeyedChildren (insertIter t ks d).1 := by
  induction ks generalizing t with
  | nil =>
      cases t with
      | node cs k0 d0 =>
          cases ht with
          | mk _ _ _ hk hrec =>
              cases d0 with
              | none => rw [insertIter_nil_none]; exact .mk _ _ _ hk hrec
              | some v => rw [insertIter_nil_some]; exact .mk _ _ _ hk hrec
  | cons k rest ih =>
      cases t with
      | node cs k0 d0 =>
          cases ht with
          | mk _ _ _ hk hrec =>
              match hf : findChild cs k with
              | some (pre, c, post) =>
                  rw [insertIter_cons_found hf]
                  obtain ⟨hsplit, hpre, hc⟩ := findChild_eq_some hf
                  subst hsplit
                  have hkey : ((insertIter c rest d).1).key = c.key :=
                    insertIter_key c rest d
                  refine .mk _ _ _ ?_ ?_
                  · intro x hx
                    rcases List.mem_append.mp hx with hx | hx
                    · exact hk x (List.mem_append_left _ hx)
                    · rcases List.mem_cons.mp hx with rfl | hx
                      · rw [hkey]
                        exact hk c
                          (List.mem_append_right _ (List.mem_cons_self c post))
                      · exact hk x
                          (List.mem_append_right _ (List.mem_cons_of_mem _ hx))
                  · intro x hx
                    rcases List.mem_append.mp hx with hx | hx
                    · exact hrec x (List.mem_append_left _ hx)
                    · rcases List.mem_cons.mp hx with rfl | hx
                      · exact ih (hrec c
                          (List.mem_append_right _ (List.mem_cons_self c post)))
                      · exact hrec x
                          (List.mem_append_right _ (List.mem_cons_of_mem _ hx))
              | none =>
                  rw [insertIter_cons_new hf, insertIter_fresh]
                  refine .mk _ _ _ ?_ ?_
                  · intro x hx
                    rcases List.mem_append.mp hx with hx | hx
                    · exact hk x hx
                    · rcases List.mem_singleton.mp hx with rfl
                      rw [chainRoot_key]
                      rfl
                  · intro x hx
                    rcases List.mem_append.mp hx with hx | hx
                    · exact hrec x hx
                    · rcases List.mem_singleton.mp hx with rfl
                      exact keyedChildren_chainRoot (some k) rest d

theorem insert_new_empty (ks : List K) (d : D) :
    insertIter (new_empty : Trie K D) ks d = (chainRoot none ks d, .ok ()) :=
  insertIter_fresh none ks d

/-! ### The claims -/

/-- Claim C1: for every key sequence K and value V, if K is not already
present in the trie (the exact-path lookup finds no value), then
`insert(K, V)` succeeds and an immediately following `search(K)` returns V. -/
theorem claim1_round_trip (t : Trie K D) (ks : List K) (d : D)
    (h : lookupExact t ks = none) :
    (insertIter t ks d).2 = .ok () ∧ searchIter (insertIter t ks d).1 ks = some d :=
  have hok := insertIter_ok_of_lookup_none d h
  ⟨hok, searchIter_of_lookupExact (lookupExact_insertIter_ok hok)⟩

/-- Witness for C1 at a concrete input: in the trie holding only [0] ↦ 5, the
key [0, 1] is absent, inserting it succeeds and searching it returns 7. -/
theorem claim1_round_trip_witness :
    lookupExact ((insertIter (new_empty : Trie Nat Nat) [0] 5).1) [0, 1] = none ∧
    ((insertIter ((insertIter (new_empty : Trie Nat Nat) [0] 5).1) [0, 1] 7).2 = .ok () ∧
      searchIter (insertIter ((insertIter (new_empty : Trie Nat Nat) [0] 5).1)
        [0, 1] 7).1 [0, 1] = some 7) :=
  ⟨rfl, claim1_round_trip _ [0, 1] 7 rfl⟩

/-- Claim C2: when a child matching the next input element exists, `search`
descends and returns the recursive result unchanged (the current node's value
is never offered as a fallback at that point); the fallback to the current
node's value happens exactly when the input is exhausted or no child
matches. -/
theorem claim2_search_no_backtrack :
    (∀ (t : Trie K D) (k : K) (rest : List K) pre c post,
        findChild t.children k = some (pre, c, post) →
        searchIter t (k :: rest) = searchIter c rest) ∧
    (∀ (t : Trie K D) (k : K) (rest : List K),
        findChild t.children k = none → searchIter t (k :: rest) = t.data) ∧
    (∀ t : Trie K D, searchIter t [] = t.data) :=
  ⟨fun _ _ rest _ _ _ h => searchIter_cons_found h rest,
   fun _ _ rest h => searchIter_cons_none h rest,
   fun t => searchIter_nil t⟩

/-- Witness for C2 at a concrete input: the root stores 0 and has a child for
key 1 whose subtree stores nothing; searching [1] follows the child, the
deeper no-match result is propagated unchanged, and the root's value 0 is not
offered as a fallback. -/
theorem claim2_search_no_backtrack_witness :
    searchIter (Trie.node [Trie.node [] (some 1) none] none (some 0) : Trie Nat Nat) [1] =
      searchIter (Trie.node [] (some 1) none : Trie Nat Nat) [] ∧
    searchIter (Trie.node [Trie.node [] (some 1) none] none (some 0) : Trie Nat Nat) [1] =
      none :=
  ⟨claim2_search_no_backtrack.1 _ 1 [] [] (Trie.node [] (some 1) none) [] rfl, rfl⟩

/-- Claim C3: inserting the same key sequence twice (the key not being present
beforehand, so that the first call can succeed): the first insert returns
success, the second returns the duplicate-key error, and the first value is
still returned by `search` unchanged; moreover success and the duplicate-key
error are the only results `insert` can produce. -/
theorem claim3_duplicate_rejection :
    (∀ (t : Trie K D) (ks : List K) (d1 d2 : D), lookupExact t ks = none →
      (insertIter t ks d1).2 = .ok () ∧
      (insertIter (insertIter t ks d1).1 ks d2).2 = dupErr ∧
      searchIter (insertIter (insertIter t ks d1).1 ks d2).1 ks = some d1) ∧
    (∀ (t : Trie K D) (ks : List K) (d : D),
      (insertIter t ks d).2 = .ok () ∨ (insertIter t ks d).2 = dupErr) := by
  constructor
  · intro t ks d1 d2 h
    have hok := insertIter_ok_of_lookup_none d1 h
    have hlk : lookupExact (insertIter t ks d1).1 ks = some d1 :=
      lookupExact_insertIter_ok hok
    have hdup : (insertIter (insertIter t ks d1).1 ks d2).2 = dupErr :=
      insertIter_dup_of_lookup_some d2 hlk
    refine ⟨hok, hdup, ?_⟩
    rw [insertIter_err_eq (hdup.trans rfl)]
    exact searchIter_of_lookupExact hlk
  · exact fun t ks d => insertIter_result t ks d

/-- Witness for C3 at a concrete input: inserting [0, 1] twice into the empty
trie: first `Ok`, then `Err("key already present!")`, and the search still
returns the first value. -/
theorem claim3_duplicate_rejection_witness :
    lookupExact (new_empty : Trie Nat Nat) [0, 1] = none ∧
    ((insertIter (new_empty : Trie Nat Nat) [0, 1] 3).2 = .ok () ∧
      (insertIter (insertIter (new_empty : Trie Nat Nat) [0, 1] 3).1 [0, 1] 4).2 = dupErr ∧
      searchIter (insertIter (insertIter (new_empty : Trie Nat Nat) [0, 1] 3).1
        [0, 1] 4).1 [0, 1] = some 3) :=
  ⟨rfl, claim3_duplicate_rejection.1 _ [0, 1] 3 4 rfl⟩

/-- Counterexample to claim C4 as stated: with exactly the prefix P = [0] ↦ 1
and the extension P ++ suffix = [0, 1, 2] ↦ 2 inserted, the query [0, 1, 3]
starts with P and diverges from the suffix before matching it (at its second
element), yet `search` returns no result instead of the value 1 stored for
P: once the edge for the first suffix element is followed, the walk never
backtracks to the shorter match. -/
theorem claim4_counterexample :
    searchIter (insertIter (insertIter (new_empty : Trie Nat Nat) [0] 1).1
      [0, 1, 2] 2).1 [0, 1, 3] = none ∧
    (none : Option Nat) ≠ some 1 :=
  ⟨rfl, by decide⟩

/-- Claim C4 (amended): if exactly a prefix P and an extension P ++ s :: S
have been inserted with distinct values (either insertion order produces the
same trie), `search` on any sequence beginning with the extension returns the
extension's value; `search` on P itself, or on any sequence that follows P
and then diverges at the first element of the suffix, returns P's value; and
a sequence that follows P, matches the first suffix element and possibly more,
and then diverges strictly inside the suffix returns no result (the
no-backtracking rule of C2). -/
theorem claim4_longest_match (P : List K) (s : K) (S : List K) (v1 v2 : D)
    (_hdistinct : v1 ≠ v2) (t : Trie K D)
    (ht : t = (insertIter (insertIter (new_empty : Trie K D) P v1).1
      (P ++ s :: S) v2).1) :
    t = (insertIter (insertIter (new_empty : Trie K D) (P ++ s :: S) v2).1 P v1).1 ∧
    (∀ E, searchIter t (P ++ s :: (S ++ E)) = some v2) ∧
    searchIter t P = some v1 ∧
    (∀ x R, x ≠ s → searchIter t (P ++ x :: R) = some v1) ∧
    (∀ S1 y S2 x R, S = S1 ++ y :: S2 → x ≠ y →
      searchIter t (P ++ s :: (S1 ++ x :: R)) = none) := by
  have hA : (insertIter (insertIter (new_empty : Trie K D) P v1).1
      (P ++ s :: S) v2).1 = twoT none P s S v1 v2 := by
    rw [insert_new_empty]
    show (insertIter (chainRoot none P v1) (P ++ s :: S) v2).1 = _
    rw [insert_chainRoot_extend]
  have hB : (insertIter (insertIter (new_empty : Trie K D) (P ++ s :: S) v2).1
      P v1).1 = twoT none P s S v1 v2 := by
    rw [insert_new_empty]
    show (insertIter (chainRoot none (P ++ s :: S) v2) P v1).1 = _
    rw [insert_chainRoot_shorter]
  subst ht
  rw [hA, hB]
  refine ⟨rfl,
    fun E => searchIter_twoT_ext none P s S v1 v2 E,
    searchIter_twoT_at_P none P s S v1 v2,
    fun x R hx => searchIter_twoT_diverge none P s S v1 v2 hx R, ?_⟩
  intro S1 y S2 x R hS hx
  subst hS
  exact searchIter_twoT_deep_diverge none P s S1 y S2 v1 v2 hx R

/-- Witness for the amended C4 at a concrete input: with [0] ↦ 1 and
[0, 1, 2] ↦ 2 inserted, searching [0, 1, 2, 9] returns 2, searching [0]
returns 1, searching [0, 2] (diverging at the first suffix element) returns
1, and searching [0, 1, 3] (diverging strictly inside the suffix) returns no
result. -/
theorem claim4_longest_match_witness :
    (1 : Nat) ≠ 2 ∧ (2 : Nat) ≠ 1 ∧ (3 : Nat) ≠ 2 ∧
    searchIter (insertIter (insertIter (new_empty : Trie Nat Nat) [0] 1).1
      [0, 1, 2] 2).1 [0, 1, 2, 9] = some 2 ∧
    searchIter (insertIter (insertIter (new_empty : Trie Nat Nat) [0] 1).1
      [0, 1, 2] 2).1 [0] = some 1 ∧
    searchIter (insertIter (insertIter (new_empty : Trie Nat Nat) [0] 1).1
      [0, 1, 2] 2).1 [0, 2] = some 1 ∧
    searchIter (insertIter (insertIter (new_empty : Trie Nat Nat) [0] 1).1
      [0, 1, 2] 2).1 [0, 1, 3] = none := by
  have h := claim4_longest_match [0] 1 [2] 1 2 (by decide) _ rfl
  exact ⟨by decide, by decide, by decide, h.2.1 [9], h.2.2.1,
    h.2.2.2.1 2 [] (by decide), h.2.2.2.2 [] 2 [] 3 [] rfl (by decide)⟩

/-- Claim C5: `search` returns no result whenever no node along the traversed
path has a stored value: every search of the empty trie returns none; if no
node on the traversed path carries a value, the result is none; and after
inserting only a strictly longer key P ++ q :: Q into an empty trie,
searching the proper prefix P returns no result. -/
theorem claim5_no_spurious_match :
    (∀ ks : List K, searchIter (new_empty : Trie K D) ks = none) ∧
    (∀ (t : Trie K D) (ks : List K), pathHasValue t ks = false →
      searchIter t ks = none) ∧
    (∀ (P Q : List K) (q : K) (d : D),
      searchIter (insertIter (new_empty : Trie K D) (P ++ q :: Q) d).1 P = none) := by
  refine ⟨?_, ?_, ?_⟩
  · intro ks
    cases ks with
    | nil => rfl
    | cons k rest =>
        exact searchIter_node_none (by simp [findChild]) none none rest
  · exact fun t ks h => searchIter_none_of_pathHasValue_false h
  · intro P Q q d
    rw [insert_new_empty]
    exact searchIter_chainRoot_stops none P q Q d

/-- Witness for C5 at a concrete input: after inserting only [0, 1, 2] ↦ 5,
no node on the path of [0, 1] has a value and searching [0, 1] returns
none. -/
theorem claim5_no_spurious_match_witness :
    pathHasValue ((insertIter (new_empty : Trie Nat Nat) [0, 1, 2] 5).1) [0, 1] = false ∧
    searchIter ((insertIter (new_empty : Trie Nat Nat) [0, 1, 2] 5).1) [0, 1] = none :=
  ⟨rfl, claim5_no_spurious_match.2.1 _ [0, 1] rfl⟩

/-- Claim C6: if `insert(K, V)` fails with the duplicate-key error then the
trie after the call is identical to the trie before it: no value is modified
and no node is created. -/
theorem claim6_failed_insert_unchanged (t : Trie K D) (ks : List K) (d : D)
    (e : String) (h : (insertIter t ks d).2 = .error e) :
    (insertIter t ks d).1 = t :=
  insertIter_err_eq h

/-- Witness for C6 at a concrete input: re-inserting [0] into the trie
holding [0] ↦ 5 fails and leaves the trie exactly as it was. -/
theorem claim6_failed_insert_unchanged_witness :
    (insertIter ((insertIter (new_empty : Trie Nat Nat) [0] 5).1) [0] 6).2 =
      .error "key already present!" ∧
    (insertIter ((insertIter (new_empty : Trie Nat Nat) [0] 5).1) [0] 6).1 =
      (insertIter (new_empty : Trie Nat Nat) [0] 5).1 :=
  ⟨rfl, claim6_failed_insert_unchanged _ [0] 6 "key already present!" rfl⟩

/-- Claim C7: inserting the empty key sequence into a fresh trie succeeds and
stores the value at the root; afterwards searching the empty sequence returns
that value, and so does searching every non-empty sequence, because the root
has a value and no children. -/
theorem claim7_empty_key (v : D) :
    (insertIter (new_empty : Trie K D) [] v).2 = .ok () ∧
    ((insertIter (new_empty : Trie K D) [] v).1).data = some v ∧
    ∀ ks : List K, searchIter (insertIter (new_empty : Trie K D) [] v).1 ks = some v := by
  refine ⟨rfl, rfl, ?_⟩
  intro ks
  show searchIter (Trie.node [] none (some v)) ks = some v
  cases ks with
  | nil => rfl
  | cons k rest => exact searchIter_node_none (by simp [findChild]) none (some v) rest

/-- Claim C8: in every trie reachable from `new_empty` by the library's
operations (only `insert_iter` mutates; `search_iter` takes the trie by
shared reference and is pure), no node has two distinct children whose key
elements are equal. -/
theorem claim8_nodup_child_keys {t : Trie K D} (h : Reachable t) :
    NodupChildren t := by
  induction h with
  | base => exact .mk [] none none (by simp) (by simp)
  | step t ks d _ ih => exact nodupChildren_insert ih ks d

/-- Witness for C8 at a concrete reachable trie. -/
theorem claim8_nodup_child_keys_witness :
    NodupChildren ((insertIter (new_empty : Trie Nat Nat) [0, 1] 5).1) :=
  claim8_nodup_child_keys (Reachable.step _ [0, 1] 5 Reachable.base)

/-- Claim C9: once `insert(K, V)` has succeeded, `search(K)` returns V after
any subsequent sequence of inserts with any keys and values, whether those
later inserts succeed or fail. -/
theorem claim9_persistence (t : Trie K D) (ks : List K) (v : D)
    (h : (insertIter t ks v).2 = .ok ()) (ops : List (List K × D)) :
    searchIter (insertAll (insertIter t ks v).1 ops) ks = some v := by
  have hstep : ∀ (os : List (List K × D)) (u : Trie K D), lookupExact u ks = some v →
      lookupExact (insertAll u os) ks = some v := by
    intro os
    induction os with
    | nil => exact fun u hu => hu
    | cons p os' ih => exact fun u hu => ih _ (lookupExact_insert_preserved hu p.1 p.2)
  exact searchIter_of_lookupExact (hstep ops _ (lookupExact_insertIter_ok h))

/-- Witness for C9 at a concrete input: [0] ↦ 5 survives a failed duplicate
insert and a successful extension insert. -/
theorem claim9_persistence_witness :
    (insertIter (new_empty : Trie Nat Nat) [0] 5).2 = .ok () ∧
    searchIter (insertAll (insertIter (new_empty : Trie Nat Nat) [0] 5).1
      [([0], 9), ([0, 1], 7)]) [0] = some 5 :=
  ⟨rfl, claim9_persistence new_empty [0] 5 rfl [([0], 9), ([0, 1], 7)]⟩

/-- Claim C10: in every trie reachable from `new_empty` by inserts, every
node appearing in some children list has a present (`some`) key element,
and the root keeps the absent key element given to it by `new_empty`, so the
key-present check in child scans never skips a reachable child. -/
theorem claim10_children_keys_present {t : Trie K D} (h : Reachable t) :
    KeyedChildren t ∧ t.key = none := by
  induction h with
  | base => exact ⟨.mk [] none none (by simp) (by simp), rfl⟩
  | step t ks d _ ih =>
      exact ⟨keyedChildren_insert ih.1 ks d, (insertIter_key t ks d).trans ih.2⟩

/-- Witness for C10 at a concrete reachable trie. -/
theorem claim10_children_keys_present_witness :
    KeyedChildren ((insertIter (new_empty : Trie Nat Nat) [0, 1] 5).1) ∧
    ((insertIter (new_empty : Trie Nat Nat) [0, 1] 5).1).key = none :=
  claim10_children_keys_present (Reachable.step _ [0, 1] 5 Reachable.base)

end RustTrie
